import Mathlib

/-!
Shallow embedding of the radial sweep-line visibility engine of
invest_natcap/nearshore_wave_and_erosion/NearshoreWaveFunctions_cython_3p0.pyx
(functions list_extreme_cell_angles, compute_distances,
update_visible_pixels_fast, _active_pixel_index / active_pixel_index and
sweep_through_angles).

Modelling conventions:
* C/Cython doubles are embedded as rationals; all arithmetic is exact.
* C ints and Python ints are embedded as integers (or naturals for loop
  counters that the source keeps nonnegative).
* numpy 1-D arrays are embedded as Lean arrays; reads follow Python index
  semantics (a negative index addresses from the end of the array, which
  the source exercises when it reads I[index] with index still -1);
  writes outside the array bounds are dropped (an out-of-range write to
  the malloc'd C active-pixel array is undefined behaviour in the source,
  and the add loop is the only place the source bound-checks an index).
* the output visibility map (a numpy 2-D float array that the caller
  zero-initialises) is embedded as an association list from (row, col)
  to value; a missing key reads as 0, the newest entry for a key wins.
* the assert statements of sweep_through_angles are embedded in Option:
  a none result models an AssertionError aborting the sweep.
* in the source, slope = (Es-Os)/(El-Ol) is an IEEE division that the
  callers keep away from El = Ol; rational division yields 0 there.
* the transcendental atan2 layer of list_extreme_cell_angles is embedded
  over the real numbers with Real.arctan (necessarily noncomputable);
  everything on the integer grid side stays computable.
-/

namespace Viewshed

/-- Python/numpy read access: a negative index counts from the end of the
array. Out-of-range reads return the supplied default. -/
def pyGet {α : Type} (a : Array α) (i : ℤ) (d : α) : α :=
  if 0 ≤ i then a.getD i.toNat d else a.getD ((a.size : ℤ) + i).toNat d

/-- Python/numpy write access: a negative index counts from the end of the
array; out-of-range writes are dropped. -/
def pySet {α : Type} (a : Array α) (i : ℤ) (v : α) : Array α :=
  if 0 ≤ i then a.setD i.toNat v else a.setD ((a.size : ℤ) + i).toNat v

/-- C cast of a double to int: truncation toward zero. -/
def cTrunc (x : ℚ) : ℤ := if 0 ≤ x then ⌊x⌋ else ⌈x⌉

@[simp] theorem cTrunc_intCast (n : ℤ) : cTrunc (n : ℚ) = n := by
  unfold cTrunc
  split <;> simp

/-! ## The Active-Line Indexer

Source, active_pixel_index (lines 929-937):
  return <int>(Sl*2*Dl+(Ss*Ds-(<int>(Ss*slope*(Dl-Sl*.5)+.5)))) if Ds or Dl else 0
The same expression is inlined three times inside sweep_through_angles
(lines 1032, 1098 and 1144). -/

/-- Embedding of the cdef active_pixel_index: the slot-index formula, with
the two C int casts embedded as truncation toward zero, and the Python
truthiness test "if Ds or Dl" embedded as disequality with 0. -/
def active_pixel_index (Dl Ds Sl Ss slope : ℚ) : ℤ :=
  if Ds ≠ 0 ∨ Dl ≠ 0 then
    cTrunc (Sl * 2 * Dl + (Ss * Ds - (cTrunc (Ss * slope * (Dl - Sl * (1/2)) + 1/2) : ℚ)))
  else 0

/-- Travel sign from viewpoint coordinate a toward endpoint coordinate b:
-1 if a > b else 1 (source lines 922-923 and 988-989). -/
def sgnDir (a b : ℚ) : ℚ := if a > b then -1 else 1

/-- Integer version of the travel sign, for the spec-side formula. -/
def sgnDirInt (a b : ℤ) : ℤ := if a > b then -1 else 1

/-- Slope of the ray: (Es-Os)/(El-Ol), guarded to 0 when El = Ol as in the
Python wrapper (source line 925). -/
def slopeGuard (El Ol Es Os : ℚ) : ℚ := if El = Ol then 0 else (Es - Os) / (El - Ol)

/-- Helper for the Python wrapper _active_pixel_index once the long/short
axes are fixed: derives Dl, Ds, the travel signs and the slope exactly as
the source does, then applies the slot-index formula. -/
def apIndexFrame (Ol Os Pl Ps El Es : ℚ) : ℤ :=
  active_pixel_index (Pl - Ol) (Ps - Os) (sgnDir Ol El) (sgnDir Os Es)
    (slopeGuard El Ol Es Os)

/-- Embedding of the Python wrapper _active_pixel_index(O, P, E): the long
axis is the coordinate axis along which the endpoint E differs most from
the viewpoint O (rows when abs(E[0]-O[0]) > abs(E[1]-O[1]), else columns). -/
def activePixelIndexPoints (O P E : ℚ × ℚ) : ℤ :=
  if |E.1 - O.1| > |E.2 - O.2| then apIndexFrame O.1 O.2 P.1 P.2 E.1 E.2
  else apIndexFrame O.2 O.1 P.2 P.1 E.2 E.1

/-- Modelled from the spec (section 4.3): the slot-index formula as the
spec words it, with round denoting rounding to the nearest integer
(round-half-up); used only to compare against the code's formula. -/
def specSlotFormula (Dl Ds Sl Ss : ℤ) (slope : ℚ) : ℤ :=
  if Ds ≠ 0 ∨ Dl ≠ 0 then
    Sl * 2 * Dl + (Ss * Ds - round ((Ss : ℚ) * slope * ((Dl : ℚ) - (Sl : ℚ) * (1/2))))
  else 0

/-- Modelled from the spec (section 4.3): the spec's slot index for integer
grid points O, P, E, with the same long/short-axis selection as the code. -/
def specSlotFrame (Ol Os Pl Ps El Es : ℤ) : ℤ :=
  specSlotFormula (Pl - Ol) (Ps - Os) (sgnDirInt Ol El) (sgnDirInt Os Es)
    (slopeGuard (El : ℚ) (Ol : ℚ) (Es : ℚ) (Os : ℚ))

/-- Modelled from the spec (section 4.3): spec-side slot index on points. -/
def specSlotPoints (O P E : ℤ × ℤ) : ℤ :=
  if |E.1 - O.1| > |E.2 - O.2| then specSlotFrame O.1 O.2 P.1 P.2 E.1 E.2
  else specSlotFrame O.2 O.1 P.2 P.1 E.2 E.1

/-- Cast an integer grid point to the rational plane (the Python wrapper
converts its arguments with float(...) on entry). -/
def intPoint (p : ℤ × ℤ) : ℚ × ℚ := ((p.1 : ℚ), (p.2 : ℚ))

/-! ## Angle Classifier: cell enumeration and radius filter

Source, list_extreme_cell_angles (lines 615-773). The two passes (count,
then fill) enumerate the same cells; the embedding lists the (row, col)
pairs that survive the radius filter and the viewpoint exclusion. -/

/-- Embedding of the cell enumeration of list_extreme_cell_angles: row-major
scan of the grid, skipping cells with squared distance above max_dist_sq
and the viewpoint cell itself. max_dist_sq is max_dist**2 when
max_dist >= 0 and the 1000000000 sentinel otherwise. -/
def listCellCoords (array_rows array_cols : ℕ) (viewpoint_row viewpoint_col : ℤ)
    (max_dist : ℚ) : List (ℤ × ℤ) :=
  let max_dist_sq : ℚ := if 0 ≤ max_dist then max_dist ^ 2 else 1000000000
  ((List.range array_rows).flatMap fun row =>
    (List.range array_cols).map fun col => ((row : ℤ), (col : ℤ))).filter
    fun rc =>
      let d : ℤ := (rc.1 - viewpoint_row) ^ 2 + (rc.2 - viewpoint_col) ^ 2
      ¬ ((max_dist_sq < (d : ℚ)) ∨ (rc.1 = viewpoint_row ∧ rc.2 = viewpoint_col))

/-! ## compute_distances

Source, compute_distances (lines 775-788):
  distance_sq[i] = ((vi - I[i])**2 + (vj - J[i])**2) * cell_size_sq
  distance[i] = sqrt(distance_sq[i])
The embedding keeps the exact squared distances; the final sqrt is a
strictly monotone bijection of the nonnegatives, so two distances are
equal exactly when the squared values below are equal. -/

/-- Embedding of the distance_sq array filled by compute_distances. -/
def compute_distance_sq (vi vj : ℤ) (cell_size : ℚ) (I J : Array ℤ) : Array ℚ :=
  Array.ofFn (n := I.size) fun i =>
    (((vi : ℚ) - (I.get i : ℤ)) ^ 2 + ((vj : ℚ) - (J.getD i.val 0 : ℤ)) ^ 2)
      * (cell_size * cell_size)

/-- Rounding argument of the inner C int cast, for a fixed axis frame on
integer points: Ss*slope*(Dl - Sl*.5). -/
def innerFrame (Ol Os Pl Ps El Es : ℤ) : ℚ :=
  ((sgnDirInt Os Es : ℤ) : ℚ) * slopeGuard (El : ℚ) (Ol : ℚ) (Es : ℚ) (Os : ℚ)
    * (((Pl - Ol : ℤ) : ℚ) - ((sgnDirInt Ol El : ℤ) : ℚ) * (1/2))

/-- Rounding argument of the inner C int cast of _active_pixel_index on
integer points, after the long/short-axis selection. -/
def innerArgPoints (O P E : ℤ × ℤ) : ℚ :=
  if |E.1 - O.1| > |E.2 - O.2| then innerFrame O.1 O.2 P.1 P.2 E.1 E.2
  else innerFrame O.2 O.1 P.2 P.1 E.2 E.1

theorem active_pixel_index_eq_spec (Dl Ds Sl Ss : ℤ) (slope : ℚ)
    (h : 0 ≤ (Ss : ℚ) * slope * ((Dl : ℚ) - (Sl : ℚ) * (1/2)) + 1/2) :
    active_pixel_index (Dl : ℚ) (Ds : ℚ) (Sl : ℚ) (Ss : ℚ) slope
      = specSlotFormula Dl Ds Sl Ss slope := by
  unfold active_pixel_index specSlotFormula
  have hinner : cTrunc ((Ss : ℚ) * slope * ((Dl : ℚ) - (Sl : ℚ) * (1/2)) + 1/2)
      = round ((Ss : ℚ) * slope * ((Dl : ℚ) - (Sl : ℚ) * (1/2))) := by
    rw [round_eq]
    unfold cTrunc
    rw [if_pos h]
  by_cases hzero : Ds ≠ 0 ∨ Dl ≠ 0
  · rw [if_pos (by push_cast [Int.cast_ne_zero]; exact_mod_cast hzero), if_pos hzero, hinner]
    have : (Sl : ℚ) * 2 * (Dl : ℚ) + ((Ss : ℚ) * (Ds : ℚ)
        - ((round ((Ss : ℚ) * slope * ((Dl : ℚ) - (Sl : ℚ) * (1/2)))) : ℚ))
        = ((Sl * 2 * Dl + (Ss * Ds
            - round ((Ss : ℚ) * slope * ((Dl : ℚ) - (Sl : ℚ) * (1/2)))) : ℤ) : ℚ) := by
      push_cast
      ring
    rw [this, cTrunc_intCast]
  · rw [if_neg (by push_cast [Int.cast_ne_zero]; exact_mod_cast hzero), if_neg hzero]

theorem sgnDir_intCast (a b : ℤ) :
    sgnDir (a : ℚ) (b : ℚ) = ((sgnDirInt a b : ℤ) : ℚ) := by
  unfold sgnDir sgnDirInt
  by_cases h : a > b
  · rw [if_pos (by exact_mod_cast h), if_pos h]
    simp
  · rw [if_neg (by exact_mod_cast h), if_neg h]
    simp

theorem apIndexFrame_eq_specFrame (Ol Os Pl Ps El Es : ℤ)
    (h : 0 ≤ innerFrame Ol Os Pl Ps El Es + 1/2) :
    apIndexFrame (Ol : ℚ) (Os : ℚ) (Pl : ℚ) (Ps : ℚ) (El : ℚ) (Es : ℚ)
      = specSlotFrame Ol Os Pl Ps El Es := by
  unfold apIndexFrame specSlotFrame
  have hDl : (Pl : ℚ) - (Ol : ℚ) = ((Pl - Ol : ℤ) : ℚ) := by push_cast; ring
  have hDs : (Ps : ℚ) - (Os : ℚ) = ((Ps - Os : ℤ) : ℚ) := by push_cast; ring
  rw [hDl, hDs, sgnDir_intCast, sgnDir_intCast]
  exact active_pixel_index_eq_spec _ _ _ _ _ (by exact h)

/-- Claim C3, counterexample: at viewpoint O = (0,0), endpoint E = (3,4) and
target cell P = (0,-1) the code returns -2 (truncating -0.625 toward zero
gives 0) while the spec's round-to-nearest formula gives -1 (round of
-1.125 is -1), so the claimed equality fails. -/
theorem C3_counterexample :
    activePixelIndexPoints (intPoint (0, 0)) (intPoint (0, -1)) (intPoint (3, 4))
      ≠ specSlotPoints (0, 0) (0, -1) (3, 4) := by
  decide!

/-- Claim C3, amended: the Active-Line Indexer returns
Sl*2*Dl + (Ss*Ds - t(Ss*slope*(Dl - Sl*0.5))) where t is C truncation
toward zero of its argument plus one half, which agrees with rounding to
the nearest integer exactly when that argument is at least -1/2; under
that condition the code's index equals the spec's formula (with the
degenerate Dl = Ds = 0 case giving 0 on both sides). -/
theorem C3_theorem (O P E : ℤ × ℤ) (h : 0 ≤ innerArgPoints O P E + 1/2) :
    activePixelIndexPoints (intPoint O) (intPoint P) (intPoint E)
      = specSlotPoints O P E := by
  unfold activePixelIndexPoints specSlotPoints intPoint
  dsimp only
  revert h
  unfold innerArgPoints
  by_cases hc : |E.1 - O.1| > |E.2 - O.2|
  · have hcq : |(E.1 : ℚ) - (O.1 : ℚ)| > |(E.2 : ℚ) - (O.2 : ℚ)| := by
      exact_mod_cast hc
    rw [if_pos hcq, if_pos hc, if_pos hc]
    exact apIndexFrame_eq_specFrame _ _ _ _ _ _
  · have hcq : ¬ (|(E.1 : ℚ) - (O.1 : ℚ)| > |(E.2 : ℚ) - (O.2 : ℚ)|) := by
      intro hq
      exact hc (by exact_mod_cast hq)
    rw [if_neg hcq, if_neg hc, if_neg hc]
    exact apIndexFrame_eq_specFrame _ _ _ _ _ _

/-- Claim C3, witness: the amended equivalence applied at O = (0,0),
P = (0,1), E = (3,4), where the rounding argument is 3/8 and both sides
compute the slot index 2. -/
theorem C3_witness :
    activePixelIndexPoints (intPoint (0, 0)) (intPoint (0, 1)) (intPoint (3, 4))
      = specSlotPoints (0, 0) (0, 1) (3, 4) :=
  C3_theorem (0, 0) (0, 1) (3, 4) (by decide!)

/-- Claim C8: for an 8x8 grid with viewpoint at the corner (0,0) and
maximum radius 3, the Angle Classifier's cell enumeration contains
exactly the grid cells with row^2 + col^2 <= 9, excluding the viewpoint
cell (0,0): a cell is dropped precisely when its squared distance exceeds
the squared radius or it is the viewpoint. -/
theorem C8_theorem :
    listCellCoords 8 8 0 0 3
      = ((List.range 8).flatMap fun row =>
          (List.range 8).map fun col => ((row : ℤ), (col : ℤ))).filter
          (fun rc => rc.1 ^ 2 + rc.2 ^ 2 ≤ 9 ∧ rc ≠ (0, 0)) := by
  decide!

/-- Claim C9, counterexample: with viewpoint (0,0), cell (3,4) and
cell_size 2, compute_distances stores squared distance 100, i.e. distance
sqrt(100) = 10, while the claim's formula sqrt((row-vr)^2+(col-vc)^2)
gives sqrt(25) = 5: the stored distance is not the claimed one (sqrt is
injective on nonnegatives, so comparing the squares decides the claim). -/
theorem C9_counterexample :
    (compute_distance_sq 0 0 2 #[3] #[4]).getD 0 0
      ≠ ((3 - 0 : ℚ) ^ 2 + (4 - 0 : ℚ) ^ 2) := by
  decide!

/-- Claim C9, amended: the computed distance equals
cell_size * sqrt((row-vr)^2 + (col-vc)^2) exactly, i.e. the stored
squared distance is ((row-vr)^2 + (col-vc)^2) * cell_size^2; the claimed
formula without the cell_size factor holds exactly when cell_size = 1. -/
theorem C9_theorem (vi vj : ℤ) (cell_size : ℚ) (I J : Array ℤ) (i : ℕ)
    (h : i < I.size) :
    (compute_distance_sq vi vj cell_size I J).getD i 0
      = (((I.getD i 0 : ℤ) : ℚ) - (vi : ℚ)) ^ 2 * (cell_size * cell_size)
        + (((J.getD i 0 : ℤ) : ℚ) - (vj : ℚ)) ^ 2 * (cell_size * cell_size) := by
  have hs : i < (compute_distance_sq vi vj cell_size I J).size := by
    simpa [compute_distance_sq] using h
  rw [Array.getD, dif_pos hs]
  simp only [compute_distance_sq, Array.get_eq_getElem, Array.getElem_ofFn]
  have hI : I.getD i 0 = I[i] := by rw [Array.getD, dif_pos h, Array.get_eq_getElem]
  rw [hI]
  ring

/-- Claim C9, witness: the amended formula applied to viewpoint (0,0),
cell (3,4), cell_size 2, giving squared distance 100. -/
theorem C9_witness :
    (compute_distance_sq 0 0 2 #[3] #[4]).getD 0 0
      = (((#[(3 : ℤ)].getD 0 0 : ℤ) : ℚ) - ((0 : ℤ) : ℚ)) ^ 2 * (2 * 2)
        + (((#[(4 : ℤ)].getD 0 0 : ℤ) : ℚ) - ((0 : ℤ) : ℚ)) ^ 2 * (2 * 2) :=
  C9_theorem 0 0 2 #[3] #[4] 0 (by decide)

/-! ## The Visibility Evaluator

Source, struct ActivePixel (lines 855-860) and update_visible_pixels_fast
(lines 862-901). -/

/-- Embedding of the C struct ActivePixel. The malloc'd array is only
initialised in its is_active field; the remaining fields of a never-used
slot are modelled as 0. -/
structure ActivePixel where
  is_active : Bool
  index : ℤ
  distance : ℚ
  visibility : ℚ
  offset : ℚ
  deriving DecidableEq, Inhabited, Repr

/-- Embedding of the caller-owned 2-D visibility map: an association list
from (row, col) to the stored value; absent keys read as the caller's zero
initialisation, the most recent write for a key wins. -/
def VMap : Type := List ((ℤ × ℤ) × ℚ)

instance : DecidableEq VMap := by
  unfold VMap
  infer_instance

instance : Inhabited VMap := ⟨([] : List ((ℤ × ℤ) × ℚ))⟩

/-- Read one cell of the visibility map. -/
def vget (m : VMap) (p : ℤ × ℤ) : ℚ := ((m.lookup p).getD 0 : ℚ)

/-- Write one cell of the visibility map. -/
def vset (m : VMap) (p : ℤ × ℤ) (v : ℚ) : VMap := ((p, v) :: m : List ((ℤ × ℤ) × ℚ))

@[simp] theorem vget_vset_self (m : VMap) (p : ℤ × ℤ) (v : ℚ) :
    vget (vset m p v) p = v := by
  simp [vget, vset, List.lookup]

theorem vget_vset_ne (m : VMap) (p q : ℤ × ℤ) (v : ℚ) (h : q ≠ p) :
    vget (vset m p v) q = vget m q := by
  simp [vget, vset, List.lookup, beq_eq_false_iff_ne.mpr h]

/-- Loop state of update_visible_pixels_fast: the local variables of the
source function (lines 867-873) together with the visibility map being
mutated. -/
structure EvalSt where
  max_visibility : ℚ
  visibility : ℚ
  index : ℤ
  count : ℤ
  last_active : ℤ
  vmap : VMap
  deriving DecidableEq

/-- Body of the evaluator loop for an active pixel (source lines 884-897):
computes visibility = offset - max_visibility (the source's if/else
computes the same expression in both branches), raises max_visibility to
the pixel's own stored visibility field when larger, and stamps the
computed value into the visibility map only when the map still holds 0 at
the pixel's cell. -/
def processActive (I J : Array ℤ) (p : ActivePixel) (pixel_id : ℕ) (st : EvalSt) : EvalSt :=
  let visibility : ℚ :=
    if p.offset > st.max_visibility then p.offset - st.max_visibility
    else p.offset - st.max_visibility
  let mv : ℚ := if p.visibility > st.max_visibility then p.visibility else st.max_visibility
  let pos : ℤ × ℤ := (pyGet I p.index 0, pyGet J p.index 0)
  { max_visibility := mv
    visibility := visibility
    index := p.index
    count := st.count + 1
    last_active := (pixel_id : ℤ)
    vmap := if vget st.vmap pos = 0 then vset st.vmap pos visibility else st.vmap }

/-- Modelled from the spec (section 4.5), for comparison with
processActive: visibility = offset - runningMaximum, the running maximum
is updated with max over the slot's own stored visibility field, and the
computed value is stamped only where the grid still holds the unseen
sentinel 0. -/
def specEvalStep (I J : Array ℤ) (p : ActivePixel) (pixel_id : ℕ) (st : EvalSt) : EvalSt :=
  let visibility : ℚ := p.offset - st.max_visibility
  let pos : ℤ × ℤ := (pyGet I p.index 0, pyGet J p.index 0)
  { max_visibility := max st.max_visibility p.visibility
    visibility := visibility
    index := p.index
    count := st.count + 1
    last_active := (pixel_id : ℤ)
    vmap := if vget st.vmap pos = 0 then vset st.vmap pos visibility else st.vmap }

/-- Embedding of the scan loop of update_visible_pixels_fast (source lines
875-897): pixel_id counts up from 0; an inactive pixel more than two
positions past the last active one ends the scan, other inactive pixels
are skipped. The fuel argument is the number of loop iterations left,
pixel_count - pixel_id, so the recursion is structural. -/
def evalLoop (arr : Array ActivePixel) (I J : Array ℤ) :
    ℕ → ℕ → EvalSt → EvalSt
  | _, 0, st => st
  | pixel_id, fuel + 1, st =>
    let p := arr.getD pixel_id default
    if p.is_active then
      evalLoop arr I J (pixel_id + 1) fuel (processActive I J p pixel_id st)
    else
      if (pixel_id : ℤ) - st.last_active > 2 then st
      else evalLoop arr I J (pixel_id + 1) fuel st

/-- Embedding of update_visible_pixels_fast: runs the scan loop from the
source's initial locals (max_visibility = -1000000, index = -1,
last_active_pixel = 1), then performs the source's trailing debug write
of the step counter a at the last-processed pixel index (line 899, with
numpy negative-index semantics when index is still -1), and returns the
count of active pixels seen. -/
def updateVisiblePixelsFast (arr : Array ActivePixel) (I J : Array ℤ)
    (pixel_count : ℕ) (vmap : VMap) (a : ℤ) : ℤ × VMap :=
  let st := evalLoop arr I J 0 pixel_count
    { max_visibility := -1000000, visibility := 0, index := -1, count := 0,
      last_active := 1, vmap := vmap }
  (st.count, vset st.vmap (pyGet I st.index 0, pyGet J st.index 0) (a : ℚ))

/-- Claim C5: the evaluator's transition on each scanned active slot is
exactly the spec's step: computed visibility = offset minus the running
maximum accumulated so far, the running maximum is raised to the maximum
with the slot's own stored visibility field, and the computed value is
stamped at the cell's position only when that position still holds the
unseen sentinel 0. -/
theorem C5_theorem (I J : Array ℤ) (p : ActivePixel) (pixel_id : ℕ) (st : EvalSt) :
    processActive I J p pixel_id st = specEvalStep I J p pixel_id st := by
  unfold processActive specEvalStep
  have hvis : (if p.offset > st.max_visibility then p.offset - st.max_visibility
      else p.offset - st.max_visibility) = p.offset - st.max_visibility := by
    exact ite_self _
  have hmax : (if p.visibility > st.max_visibility then p.visibility
      else st.max_visibility) = max st.max_visibility p.visibility := by
    by_cases h : p.visibility > st.max_visibility
    · rw [if_pos h, max_eq_right h.le]
    · rw [if_neg h, max_eq_left (le_of_not_lt h)]
  rw [hvis, hmax]

theorem evalLoop_writes_only_unseen (fuel : ℕ) :
    ∀ (arr : Array ActivePixel) (I J : Array ℤ) (pixel_id : ℕ) (st : EvalSt)
      (pos : ℤ × ℤ),
      vget (evalLoop arr I J pixel_id fuel st).vmap pos = vget st.vmap pos
        ∨ vget st.vmap pos = 0 := by
  induction fuel with
  | zero =>
    intro arr I J pixel_id st pos
    left
    rfl
  | succ n ih =>
    intro arr I J pixel_id st pos
    have hstep : ∀ (p : ActivePixel),
        vget (processActive I J p pixel_id st).vmap pos = vget st.vmap pos
          ∨ vget st.vmap pos = 0 := by
      intro p
      unfold processActive
      dsimp only
      by_cases hz :
          vget st.vmap (pyGet I p.index 0, pyGet J p.index 0) = 0
      · rw [if_pos hz]
        by_cases hp : pos = (pyGet I p.index 0, pyGet J p.index 0)
        · right
          rw [hp]
          exact hz
        · left
          exact vget_vset_ne _ _ _ _ hp
      · rw [if_neg hz]
        left
        rfl
    unfold evalLoop
    by_cases hA : (arr.getD pixel_id default).is_active
    · rw [if_pos hA]
      rcases ih arr I J (pixel_id + 1) (processActive I J (arr.getD pixel_id default) pixel_id st) pos with h1 | h1
      · rcases hstep (arr.getD pixel_id default) with h2 | h2
        · left
          rw [h1, h2]
        · right
          exact h2
      · rcases hstep (arr.getD pixel_id default) with h2 | h2
        · right
          rw [← h2]
          exact h1
        · right
          exact h2
    · rw [if_neg hA]
      by_cases hB : (pixel_id : ℤ) - st.last_active > 2
      · rw [if_pos hB]
        left
        rfl
      · rw [if_neg hB]
        exact ih arr I J (pixel_id + 1) st pos

/-- Claim C10: the evaluator's scan loop writes a cell's visibility-map
entry only when that entry is exactly 0 (first disjunct, proved for every
input); consequently a cell whose first computed visibility is exactly 0
keeps the unseen sentinel 0, and a later evaluation pass can stamp a
different value there, shown concretely: a pixel with offset 5 behind a
horizon of 5 is stamped 0 in a first pass, and a second pass over the
re-activated pixel stamps 1000005 at the same cell. -/
theorem C10_theorem :
    (∀ (arr : Array ActivePixel) (I J : Array ℤ) (pixel_id fuel : ℕ)
       (st : EvalSt) (pos : ℤ × ℤ),
       vget (evalLoop arr I J pixel_id fuel st).vmap pos = vget st.vmap pos
         ∨ vget st.vmap pos = 0)
    ∧ (let init : VMap → EvalSt := fun m =>
        { max_visibility := -1000000, visibility := 0, index := -1, count := 0,
          last_active := 1, vmap := m }
       let I : Array ℤ := #[0, 1]
       let J : Array ℤ := #[0, 1]
       let pass1 := evalLoop
         #[{ is_active := true, index := 0, distance := 1, visibility := 5, offset := 5 },
           { is_active := true, index := 1, distance := 1, visibility := 5, offset := 5 }]
         I J 0 2 (init ([] : List ((ℤ × ℤ) × ℚ)))
       let pass2 := evalLoop
         #[{ is_active := true, index := 1, distance := 1, visibility := 5, offset := 5 }]
         I J 0 1 (init pass1.vmap)
       vget pass1.vmap (1, 1) = 0 ∧ vget pass2.vmap (1, 1) = 1000005) := by
  constructor
  · intro arr I J pixel_id fuel st pos
    exact evalLoop_writes_only_unseen fuel arr I J pixel_id st pos
  · decide!

/-- Claim C2: even on a perfectly flat active line (uniform offset 0,
visibility map all zeroes, as in the flat 5x5 scenario with viewpoint
(2,2)), one evaluator pass does not leave visibility 0 everywhere: the
first active cell is stamped offset - (-1000000) = 1000000, and the
trailing debug write (source line 899) overwrites the last-processed
cell with the step counter. Here cells (2,1) and (2,3) of the flat grid
end up holding 1000000 and 1 rather than 0. -/
theorem C2_theorem :
    (vget (updateVisiblePixelsFast
        #[{ is_active := true, index := 0, distance := 1, visibility := 0, offset := 0 },
          { is_active := true, index := 1, distance := 1, visibility := 0, offset := 0 },
          default, default]
        #[2, 2] #[1, 3] 4 ([] : List ((ℤ × ℤ) × ℚ)) 1).2 (2, 1) = 1000000)
    ∧ (vget (updateVisiblePixelsFast
        #[{ is_active := true, index := 0, distance := 1, visibility := 0, offset := 0 },
          { is_active := true, index := 1, distance := 1, visibility := 0, offset := 0 },
          default, default]
        #[2, 2] #[1, 3] 4 ([] : List ((ℤ × ℤ) × ℚ)) 1).2 (2, 3) = 1) := by
  decide!

/-! ## The Sweep Engine

Source, sweep_through_angles (lines 941-1190). The read-only inputs are
gathered in SweepInput; the mutable locals and the three inout numpy
arrays arg_min, arg_center, arg_max, together with the visibility map,
form SweepSt. -/

/-- Read-only inputs of sweep_through_angles. perimeter and coord are the
2 x n arrays of the source, stored as an array of two rows. -/
structure SweepInput where
  viewpoint : Array ℤ
  perimeter : Array (Array ℤ)
  angles : Array ℚ
  add_events : Array ℚ
  center_events : Array ℚ
  remove_events : Array ℚ
  coord : Array (Array ℤ)
  distances : Array ℚ
  offset_visibility : Array ℚ
  visibility : Array ℚ
  deriving DecidableEq, Inhabited

/-- Mutable state of sweep_through_angles: the malloc'd active-pixel
array, the three inout event-order arrays (the source zeroes their
consumed entries in place), the visibility map, the three event cursors
and the consistency-check counters. -/
structure SweepSt where
  arr : Array ActivePixel
  arg_min : Array ℤ
  arg_center : Array ℤ
  arg_max : Array ℤ
  vmap : VMap
  add_event_id : ℕ
  center_event_id : ℕ
  remove_event_id : ℕ
  previous_pixel_count : ℤ
  add_pixel_count : ℤ
  remove_pixel_count : ℤ
  deriving DecidableEq, Inhabited

/-- sign[0] = -1, sign[1] = 1 (source lines 975-977): row coordinates are
negated, column coordinates kept. -/
def sgnAxis (i : ℕ) : ℤ := if i = 0 then -1 else 1

/-- perimeter[axis][k]. -/
def perimAt (c : SweepInput) (axis k : ℕ) : ℤ := (c.perimeter.getD axis #[]).getD k 0

/-- coord[axis][i], with Python index semantics in i. -/
def coordAt (c : SweepInput) (axis : ℕ) (i : ℤ) : ℤ := pyGet (c.coord.getD axis #[]) i 0

/-- viewpoint[axis]. -/
def vpAt (c : SweepInput) (axis : ℕ) : ℤ := c.viewpoint.getD axis 0

/-- Geometry of the active line for one perimeter point: long/short axis
assignment, signed origin and endpoint coordinates, travel signs and
slope. -/
structure Frame where
  l : ℕ
  s : ℕ
  Os : ℚ
  Ol : ℚ
  Es : ℚ
  El : ℚ
  Sl : ℚ
  Ss : ℚ
  slope : ℚ
  deriving DecidableEq, Inhabited

/-- Axis recomputation of the main loop for perimeter point k (source
lines 1069-1087 and 1112-1130): the long axis is the one along which the
perimeter point differs most from the viewpoint; coordinates are
multiplied by sign[axis]; the slope division is unguarded in the source
(the callers keep El distinct from Ol); rational division yields 0 there. -/
def frameAt (c : SweepInput) (k : ℕ) : Frame :=
  let l : ℕ := if |perimAt c 0 k - vpAt c 0| > |perimAt c 1 k - vpAt c 1| then 0 else 1
  let s : ℕ := 1 - l
  let Os : ℚ := ((vpAt c s * sgnAxis s : ℤ) : ℚ)
  let Ol : ℚ := ((vpAt c l * sgnAxis l : ℤ) : ℚ)
  let Es : ℚ := ((perimAt c s k * sgnAxis s : ℤ) : ℚ)
  let El : ℚ := ((perimAt c l k * sgnAxis l : ℤ) : ℚ)
  { l := l, s := s, Os := Os, Ol := Ol, Es := Es, El := El,
    Sl := sgnDir Ol El, Ss := sgnDir Os Es, slope := (Es - Os) / (El - Ol) }

/-- Initial axis setup before the priming step (source lines 978-990):
s = 0 and l = 1 are hardcoded, Os = -viewpoint[0], Ol = viewpoint[1],
Es = -perimeter[0][0], El = perimeter[1][0]. -/
def primingFrame (c : SweepInput) : Frame :=
  let Os : ℚ := ((-(vpAt c 0) : ℤ) : ℚ)
  let Ol : ℚ := ((vpAt c 1 : ℤ) : ℚ)
  let Es : ℚ := ((-(perimAt c 0 0) : ℤ) : ℚ)
  let El : ℚ := ((perimAt c 1 0 : ℤ) : ℚ)
  { l := 1, s := 0, Os := Os, Ol := Ol, Es := Es, El := El,
    Sl := sgnDir Ol El, Ss := sgnDir Os Es, slope := (Es - Os) / (El - Ol) }

/-- Slot index of cell i under a frame: Pl = coordL[i]*sign[l],
Ps = coordS[i]*sign[s], Dl = Pl-Ol, Ds = Ps-Os, then the inlined
slot-index formula (source lines 1028-1033, 1094-1099 and 1140-1145). -/
def cellSlotID (c : SweepInput) (f : Frame) (i : ℤ) : ℤ :=
  let Pl : ℚ := ((coordAt c f.l i * sgnAxis f.l : ℤ) : ℚ)
  let Ps : ℚ := ((coordAt c f.s i * sgnAxis f.s : ℤ) : ℚ)
  active_pixel_index (Pl - f.Ol) (Ps - f.Os) f.Sl f.Ss f.slope

/-- Paired adjacent slot: ID+1 when (ID/2)*2 == ID (ID even), else ID-1
(source lines 1104 and 1148). -/
def pairedSlot (ID : ℤ) : ℤ := if (ID / 2) * 2 = ID then ID + 1 else ID - 1

/-- Priming loop (source lines 1022-1041): activate every cell whose
center event angle is below angles[1], using the priming frame; the slot
write is neither bound-checked nor collision-checked in the source. The
fuel argument bounds the remaining iterations; the loop itself stops on
its source guard. -/
def primingLoop (c : SweepInput) (f : Frame) : ℕ → SweepSt → SweepSt
  | 0, st => st
  | fuel + 1, st =>
    if st.center_event_id < c.center_events.size ∧
        pyGet c.center_events (st.arg_center.getD st.center_event_id 0) 0
          < c.angles.getD 1 0 then
      let i : ℤ := st.arg_center.getD st.center_event_id 0
      let ID := cellSlotID c f i
      let st' := { st with
        arr := pySet st.arr ID
          { is_active := true, index := i, distance := pyGet c.distances i 0,
            visibility := pyGet c.visibility i 0,
            offset := pyGet c.offset_visibility i 0 },
        center_event_id := st.center_event_id + 1,
        add_pixel_count := st.add_pixel_count + 1 }
      primingLoop c f fuel st'
    else st

/-- Remove loop of one sweep step (source lines 1089-1110): pops every
pending remove event with angle <= angles[a+1]; if the slot it indexes is
inactive or stores a different distance, the paired adjacent slot is
deactivated instead; the consumed arg_max entry is zeroed. -/
def removeLoop (c : SweepInput) (f : Frame) (angle_next : ℚ) : ℕ → SweepSt → SweepSt
  | 0, st => st
  | fuel + 1, st =>
    if st.remove_event_id < c.remove_events.size ∧
        pyGet c.remove_events (st.arg_max.getD st.remove_event_id 0) 0 ≤ angle_next then
      let i : ℤ := st.arg_max.getD st.remove_event_id 0
      let ID := cellSlotID c f i
      let p := pyGet st.arr ID default
      let ID2 := if ¬ p.is_active ∨ p.distance ≠ pyGet c.distances i 0
        then pairedSlot ID else ID
      let q := pyGet st.arr ID2 default
      let st' := { st with
        arr := pySet st.arr ID2 { q with is_active := false },
        arg_max := st.arg_max.setD st.remove_event_id 0,
        remove_event_id := st.remove_event_id + 1,
        remove_pixel_count := st.remove_pixel_count + 1 }
      removeLoop c f angle_next fuel st'
    else st

/-- Add loop of one sweep step (source lines 1132-1161): pops every
pending add event with angle < angles[a+1]; a colliding occupant is first
moved to the paired adjacent slot; the source asserts
0 <= ID < max_line_length (abort on violation, embedded as none), stores
the new pixel, and zeroes the consumed arg_min entry. The bound test is
hoisted above the collision move here; in the source the move precedes
the assert, but an assert failure kills the whole call, so the moved
occupant is never observable on that path. -/
def addLoop (c : SweepInput) (f : Frame) (angle_next : ℚ) (mll : ℕ) :
    ℕ → SweepSt → Option SweepSt
  | 0, st => some st
  | fuel + 1, st =>
    if st.add_event_id < c.add_events.size ∧
        pyGet c.add_events (st.arg_min.getD st.add_event_id 0) 0 < angle_next then
      if 0 ≤ cellSlotID c f (st.arg_min.getD st.add_event_id 0)
          ∧ cellSlotID c f (st.arg_min.getD st.add_event_id 0) < (mll : ℤ) then
        let i : ℤ := st.arg_min.getD st.add_event_id 0
        let ID := cellSlotID c f i
        let p := pyGet st.arr ID default
        let arr1 := if p.is_active then pySet st.arr (pairedSlot ID) p else st.arr
        addLoop c f angle_next mll fuel { st with
          arr := pySet arr1 ID
            { is_active := true, index := i, distance := pyGet c.distances i 0,
              visibility := pyGet c.visibility i 0,
              offset := pyGet c.offset_visibility i 0 },
          arg_min := st.arg_min.setD st.add_event_id 0,
          add_event_id := st.add_event_id + 1,
          add_pixel_count := st.add_pixel_count + 1 }
      else none
    else some st

/-- Count of active slots reported by update_visible_pixels_fast for the
current state (the left side of the source's consistency asserts). -/
def stepEvalCount (c : SweepInput) (mll : ℕ) (dbg : ℤ) (st : SweepSt) : ℤ :=
  (updateVisiblePixelsFast st.arr (c.coord.getD 0 #[]) (c.coord.getD 1 #[])
    mll st.vmap dbg).1

/-- Evaluation phase closing each sweep step (source lines 1043-1045 and
1163-1165, with the asserts at 1059-1060 and 1182-1183): runs
update_visible_pixels_fast over the whole active-pixel array and checks
the consistency invariant activeCount = previous + added - removed; a
violation aborts (none). On success the returned count becomes
previous_pixel_count for the next step. -/
def evalPhase (c : SweepInput) (mll : ℕ) (dbg : ℤ) (st : SweepSt) : Option SweepSt :=
  if stepEvalCount c mll dbg st
      = st.previous_pixel_count + st.add_pixel_count - st.remove_pixel_count then
    some { st with
      vmap := (updateVisiblePixelsFast st.arr (c.coord.getD 0 #[])
        (c.coord.getD 1 #[]) mll st.vmap dbg).2,
      previous_pixel_count := stepEvalCount c mll dbg st }
  else none

/-- One iteration of the main sweep loop at angle index a (source lines
1066-1185): reset remove counter and run the remove loop with the frame of
perimeter point a, reset add counter and run the add loop with the frame
of perimeter point a+1, then evaluate with debug counter a+1. -/
def sweepIteration (c : SweepInput) (mll : ℕ) (a : ℕ) (st : SweepSt) : Option SweepSt :=
  match addLoop c (frameAt c (a + 1)) (c.angles.getD (a + 1) 0) mll
      c.add_events.size
      { removeLoop c (frameAt c a) (c.angles.getD (a + 1) 0)
          c.remove_events.size { st with remove_pixel_count := 0 } with
        add_pixel_count := 0 } with
  | none => none
  | some st2 => evalPhase c mll ((a : ℤ) + 1) st2

/-- Main loop over angle indices 0 .. n-1 (source: for a in
range(angle_count-2)); an aborted iteration aborts the sweep. -/
def sweepLoop (c : SweepInput) (mll : ℕ) : ℕ → ℕ → SweepSt → Option SweepSt
  | _, 0, st => some st
  | a, n + 1, st =>
    match sweepIteration c mll a st with
    | none => none
    | some st' => sweepLoop c mll (a + 1) n st'

/-- The active-pixel array malloc'd by sweep_through_angles (source lines
996-1001): max_line_length = angle_count/2 slots, all deactivated. -/
def mkActiveArray (angle_count : ℕ) : Array ActivePixel :=
  Array.mkArray (angle_count / 2) default

/-- Embedding of sweep_through_angles: allocate and clear the active-pixel
array, run the priming step (collect center events below angles[1],
evaluate with debug counter 1), then the main loop over angle_count-2
angle steps. Returns the final state (mutated visibility map, event-order
arrays and counters), or none when an assert fails. -/
def sweep_through_angles (c : SweepInput) (arg_min arg_center arg_max : Array ℤ)
    (vmap : VMap) : Option SweepSt :=
  match evalPhase c (c.angles.size / 2) 1
      (primingLoop c (primingFrame c) c.center_events.size
        { arr := mkActiveArray c.angles.size,
          arg_min := arg_min, arg_center := arg_center, arg_max := arg_max,
          vmap := vmap, add_event_id := 0, center_event_id := 0,
          remove_event_id := 0, previous_pixel_count := 0, add_pixel_count := 0,
          remove_pixel_count := 0 }) with
  | none => none
  | some st1 => sweepLoop c (c.angles.size / 2) 0 (c.angles.size - 2) st1

/-! ## Claims about the Sweep Engine -/

theorem getD_setD_self (a : Array ℤ) (i : ℕ) (v d : ℤ) (h : i < a.size) :
    (a.setD i v).getD i d = v := by
  rw [Array.getD, dif_pos (by simpa using h), Array.get_eq_getElem,
    Array.getElem_setD]

theorem getD_setD_ne (a : Array ℤ) (i j : ℕ) (v d : ℤ) (h : i ≠ j) :
    (a.setD i v).getD j d = a.getD j d := by
  unfold Array.setD
  split
  · by_cases hj : j < a.size
    · rw [Array.getD, dif_pos (by simpa using hj), Array.getD, dif_pos hj,
        Array.get_eq_getElem, Array.get_eq_getElem]
      exact Array.getElem_set_ne _ _ _ _ h
    · rw [Array.getD, dif_neg (by simpa using hj), Array.getD, dif_neg hj]
  · rfl

/-- Claim C1: the evaluation phase that closes every sweep step (the
priming step runs it with debug counter 1, each loop iteration with
counter a+1) succeeds exactly when the active count reported by the
Visibility Evaluator equals previous + added - removed, it then records
that count as the new previous count, and any violation yields none,
which sweepIteration, sweepLoop and sweep_through_angles all propagate as
an aborted sweep rather than ignoring it. -/
theorem C1_theorem (c : SweepInput) (mll : ℕ) (dbg : ℤ) (st : SweepSt) :
    (∀ st', evalPhase c mll dbg st = some st' →
      stepEvalCount c mll dbg st
        = st.previous_pixel_count + st.add_pixel_count - st.remove_pixel_count
      ∧ st'.previous_pixel_count = stepEvalCount c mll dbg st)
    ∧ (stepEvalCount c mll dbg st
        ≠ st.previous_pixel_count + st.add_pixel_count - st.remove_pixel_count →
      evalPhase c mll dbg st = none) := by
  constructor
  · intro st' h
    unfold evalPhase at h
    by_cases hc : stepEvalCount c mll dbg st
        = st.previous_pixel_count + st.add_pixel_count - st.remove_pixel_count
    · refine ⟨hc, ?_⟩
      rw [if_pos hc] at h
      cases h
      rfl
    · rw [if_neg hc] at h
      exact absurd h (by simp)
  · intro hne
    unfold evalPhase
    rw [if_neg hne]

/-- Trivial sweep input with no cells and no events, used to witness the
consistency check on a step that succeeds. -/
def emptyInput : SweepInput :=
  ⟨#[], #[], #[], #[], #[], #[], #[], #[], #[], #[]⟩

/-- State of the trivial sweep before its evaluation phase. -/
def emptyState : SweepSt :=
  ⟨#[], #[], #[], #[], ([] : List ((ℤ × ℤ) × ℚ)), 0, 0, 0, 0, 0, 0⟩

/-- Claim C1, witness: on the trivial input the evaluation phase succeeds
and the invariant 0 = 0 + 0 - 0 holds. -/
theorem C1_witness :
    stepEvalCount emptyInput 0 1 emptyState
      = emptyState.previous_pixel_count + emptyState.add_pixel_count
        - emptyState.remove_pixel_count :=
  ((C1_theorem emptyInput 0 1 emptyState).1
    ((evalPhase emptyInput 0 1 emptyState).getD default) (by decide!)).1

/-- Claim C4, counterexample: with 8 discretized angle steps the sweep
allocates an active-pixel array of 8/2 = 4 slots, not 2*(8/2) = 8: the
claimed capacity 2 x maxLineLength (maxLineLength = half the angle steps)
is twice the actual allocation. -/
theorem C4_counterexample : (mkActiveArray 8).size ≠ 2 * (8 / 2) := by
  decide

/-- Claim C4, amended: the active slot array has fixed capacity
max_line_length = angle_count/2 (half the number of discretized angle
steps, not twice that), and only the add step checks its slot index: a
successful add loop implies the pending cell's index lies in
[0, max_line_length) (the assert aborts otherwise); priming and removal
indices are not checked at all. -/
theorem C4_theorem :
    (∀ angle_count : ℕ, (mkActiveArray angle_count).size = angle_count / 2)
    ∧ (∀ (c : SweepInput) (f : Frame) (angle_next : ℚ) (mll fuel : ℕ) (st : SweepSt),
        addLoop c f angle_next mll (fuel + 1) st ≠ none →
        st.add_event_id < c.add_events.size →
        pyGet c.add_events (st.arg_min.getD st.add_event_id 0) 0 < angle_next →
        0 ≤ cellSlotID c f (st.arg_min.getD st.add_event_id 0)
          ∧ cellSlotID c f (st.arg_min.getD st.add_event_id 0) < (mll : ℤ)) := by
  constructor
  · intro n
    simp [mkActiveArray]
  · intro c f angle_next mll fuel st hsome h1 h2
    unfold addLoop at hsome
    rw [if_pos ⟨h1, h2⟩] at hsome
    by_cases hb : 0 ≤ cellSlotID c f (st.arg_min.getD st.add_event_id 0)
        ∧ cellSlotID c f (st.arg_min.getD st.add_event_id 0) < (mll : ℤ)
    · exact hb
    · rw [if_neg hb] at hsome
      exact absurd rfl hsome

/-- Sweep input with a single cell east of the viewpoint, used to witness
the add-step bound check. -/
def addInput : SweepInput :=
  { viewpoint := #[2, 2], perimeter := #[#[2], #[4]], angles := #[0, 1],
    add_events := #[0], center_events := #[], remove_events := #[],
    coord := #[#[2], #[3]], distances := #[1],
    offset_visibility := #[0], visibility := #[0] }

/-- East-pointing frame for the witness input. -/
def addFrame : Frame :=
  { l := 1, s := 0, Os := -2, Ol := 2, Es := -2, El := 4, Sl := 1, Ss := 1,
    slope := 0 }

/-- Sweep state before the witness add step. -/
def addState : SweepSt :=
  { arr := mkActiveArray 8, arg_min := #[0], arg_center := #[], arg_max := #[],
    vmap := ([] : List ((ℤ × ℤ) × ℚ)), add_event_id := 0, center_event_id := 0,
    remove_event_id := 0, previous_pixel_count := 0, add_pixel_count := 0,
    remove_pixel_count := 0 }

/-- Claim C4, witness: the amended bound check applied to the one-cell
input, whose pending cell indexes slot 2 of the 4-slot array. -/
theorem C4_witness :
    0 ≤ cellSlotID addInput addFrame (addState.arg_min.getD addState.add_event_id 0)
      ∧ cellSlotID addInput addFrame (addState.arg_min.getD addState.add_event_id 0)
        < ((4 : ℕ) : ℤ) :=
  C4_theorem.2 addInput addFrame 1 4 0 addState (by decide!) (by decide) (by decide!)

/-- Invariant for the input-consumption analysis of the sweep: the
event-order arrays are large enough for their event lists, the cursors
stay within the event lists, and every already-consumed entry of arg_min
and arg_max has been zeroed in place. -/
def ConsumedZeroed (c : SweepInput) (st : SweepSt) : Prop :=
  c.add_events.size ≤ st.arg_min.size
  ∧ c.remove_events.size ≤ st.arg_max.size
  ∧ st.add_event_id ≤ c.add_events.size
  ∧ st.remove_event_id ≤ c.remove_events.size
  ∧ (∀ j, j < st.add_event_id → st.arg_min.getD j 1 = 0)
  ∧ (∀ j, j < st.remove_event_id → st.arg_max.getD j 1 = 0)

theorem primingLoop_consumed (c : SweepInput) (f : Frame) (fuel : ℕ) :
    ∀ st : SweepSt, ConsumedZeroed c st → ConsumedZeroed c (primingLoop c f fuel st) := by
  induction fuel with
  | zero =>
    intro st h
    exact h
  | succ n ih =>
    intro st h
    unfold primingLoop
    split
    · exact ih _ h
    · exact h

theorem removeLoop_consumed (c : SweepInput) (f : Frame) (angle_next : ℚ) (fuel : ℕ) :
    ∀ st : SweepSt, ConsumedZeroed c st
      → ConsumedZeroed c (removeLoop c f angle_next fuel st) := by
  induction fuel with
  | zero =>
    intro st h
    exact h
  | succ n ih =>
    intro st h
    unfold removeLoop
    split
    · rename_i hguard
      apply ih
      obtain ⟨hs1, hs2, hc1, hc2, hz1, hz2⟩ := h
      refine ⟨hs1, ?_, hc1, ?_, hz1, ?_⟩
      · show c.remove_events.size ≤ (st.arg_max.setD st.remove_event_id 0).size
        simpa using hs2
      · show st.remove_event_id + 1 ≤ c.remove_events.size
        exact hguard.1
      · intro j hj
        have hj2 : j < st.remove_event_id + 1 := hj
        show (st.arg_max.setD st.remove_event_id 0).getD j 1 = 0
        rcases Nat.lt_succ_iff_lt_or_eq.mp hj2 with hj' | hj'
        · rw [getD_setD_ne _ _ _ _ _ (ne_of_lt hj').symm]
          exact hz2 j hj'
        · subst hj'
          exact getD_setD_self _ _ _ _ (lt_of_lt_of_le hguard.1 hs2)
    · exact h

theorem addLoop_consumed (c : SweepInput) (f : Frame) (angle_next : ℚ) (mll : ℕ)
    (fuel : ℕ) :
    ∀ st st' : SweepSt, addLoop c f angle_next mll fuel st = some st'
      → ConsumedZeroed c st → ConsumedZeroed c st' := by
  induction fuel with
  | zero =>
    intro st st' heq h
    cases heq
    exact h
  | succ n ih =>
    intro st st' heq h
    unfold addLoop at heq
    by_cases hguard : st.add_event_id < c.add_events.size
        ∧ pyGet c.add_events (st.arg_min.getD st.add_event_id 0) 0 < angle_next
    · rw [if_pos hguard] at heq
      by_cases hbound : 0 ≤ cellSlotID c f (st.arg_min.getD st.add_event_id 0)
          ∧ cellSlotID c f (st.arg_min.getD st.add_event_id 0) < (mll : ℤ)
      · rw [if_pos hbound] at heq
        apply ih _ _ heq
        obtain ⟨hs1, hs2, hc1, hc2, hz1, hz2⟩ := h
        refine ⟨?_, hs2, ?_, hc2, ?_, hz2⟩
        · show c.add_events.size ≤ (st.arg_min.setD st.add_event_id 0).size
          simpa using hs1
        · show st.add_event_id + 1 ≤ c.add_events.size
          exact hguard.1
        · intro j hj
          have hj2 : j < st.add_event_id + 1 := hj
          show (st.arg_min.setD st.add_event_id 0).getD j 1 = 0
          rcases Nat.lt_succ_iff_lt_or_eq.mp hj2 with hj' | hj'
          · rw [getD_setD_ne _ _ _ _ _ (ne_of_lt hj').symm]
            exact hz1 j hj'
          · subst hj'
            exact getD_setD_self _ _ _ _ (lt_of_lt_of_le hguard.1 hs1)
      · rw [if_neg hbound] at heq
        exact absurd heq (by simp)
    · rw [if_neg hguard] at heq
      cases heq
      exact h

theorem evalPhase_consumed (c : SweepInput) (mll : ℕ) (dbg : ℤ) (st st' : SweepSt) :
    evalPhase c mll dbg st = some st' → ConsumedZeroed c st → ConsumedZeroed c st' := by
  intro heq h
  unfold evalPhase at heq
  split at heq
  · cases heq
    exact h
  · exact absurd heq (by simp)

theorem sweepIteration_consumed (c : SweepInput) (mll a : ℕ) (st st' : SweepSt) :
    sweepIteration c mll a st = some st' → ConsumedZeroed c st → ConsumedZeroed c st' := by
  intro heq h
  unfold sweepIteration at heq
  cases hadd : addLoop c (frameAt c (a + 1)) (c.angles.getD (a + 1) 0) mll
      c.add_events.size
      { removeLoop c (frameAt c a) (c.angles.getD (a + 1) 0)
          c.remove_events.size { st with remove_pixel_count := 0 } with
        add_pixel_count := 0 } with
  | none =>
    rw [hadd] at heq
    exact absurd heq (by simp)
  | some st2 =>
    rw [hadd] at heq
    exact evalPhase_consumed c mll _ st2 st' heq
      (addLoop_consumed c _ _ mll c.add_events.size _ st2 hadd
        (removeLoop_consumed c _ _ c.remove_events.size _ h))

theorem sweepLoop_consumed (c : SweepInput) (mll : ℕ) (n : ℕ) :
    ∀ (a : ℕ) (st st' : SweepSt), sweepLoop c mll a n st = some st'
      → ConsumedZeroed c st → ConsumedZeroed c st' := by
  induction n with
  | zero =>
    intro a st st' heq h
    cases heq
    exact h
  | succ m ih =>
    intro a st st' heq h
    unfold sweepLoop at heq
    split at heq
    · exact absurd heq (by simp)
    · rename_i st2 hit
      exact ih (a + 1) st2 st' heq (sweepIteration_consumed c mll a st st2 hit h)

/-- Claim C6, amended part: the sweep consumes its event-order inputs. On
any successful sweep, every entry of arg_min below the final add cursor
and every entry of arg_max below the final remove cursor has been zeroed
in place (the visibility map is likewise mutated in place), so a repeated
run on the same mutated buffers is not the same computation; identical
output is only guaranteed for fresh copies of these inputs. -/
theorem C6_theorem (c : SweepInput) (arg_min arg_center arg_max : Array ℤ)
    (vmap : VMap) (st : SweepSt)
    (hmin : c.add_events.size ≤ arg_min.size)
    (hmax : c.remove_events.size ≤ arg_max.size)
    (h : sweep_through_angles c arg_min arg_center arg_max vmap = some st) :
    (∀ j, j < st.add_event_id → st.arg_min.getD j 1 = 0)
    ∧ (∀ j, j < st.remove_event_id → st.arg_max.getD j 1 = 0) := by
  unfold sweep_through_angles at h
  have h0 : ConsumedZeroed c
      (primingLoop c (primingFrame c) c.center_events.size
        { arr := mkActiveArray c.angles.size,
          arg_min := arg_min, arg_center := arg_center, arg_max := arg_max,
          vmap := vmap, add_event_id := 0, center_event_id := 0,
          remove_event_id := 0, previous_pixel_count := 0, add_pixel_count := 0,
          remove_pixel_count := 0 }) :=
    primingLoop_consumed c _ _ _
      ⟨hmin, hmax, Nat.zero_le _, Nat.zero_le _,
        fun j hj => absurd hj (Nat.not_lt_zero j),
        fun j hj => absurd hj (Nat.not_lt_zero j)⟩
  cases heval : evalPhase c (c.angles.size / 2) 1
      (primingLoop c (primingFrame c) c.center_events.size
        { arr := mkActiveArray c.angles.size,
          arg_min := arg_min, arg_center := arg_center, arg_max := arg_max,
          vmap := vmap, add_event_id := 0, center_event_id := 0,
          remove_event_id := 0, previous_pixel_count := 0, add_pixel_count := 0,
          remove_pixel_count := 0 }) with
  | none =>
    rw [heval] at h
    exact absurd h (by simp)
  | some st1 =>
    rw [heval] at h
    have h1 := evalPhase_consumed c _ 1 _ st1 heval h0
    have h2 := sweepLoop_consumed c _ _ 0 st1 st h h1
    exact ⟨h2.2.2.2.2.1, h2.2.2.2.2.2⟩

/-- Two-cell sweep input on a 5x5-style grid with viewpoint (2,2), cells
(2,3) and (1,3), eight discretized angles (embedded as the opaque ordered
values 0..7), and events ordered so that arg_min = [1, 0] is a genuine
permutation. -/
def inputC6 : SweepInput :=
  { viewpoint := #[2, 2],
    perimeter := #[#[2, 1, 0, 0, 0, 0, 0, 0], #[4, 4, 2, 2, 2, 2, 2, 2]],
    angles := #[0, 1, 2, 3, 4, 5, 6, 7],
    add_events := #[3/2, 1/2],
    center_events := #[6/5, 6/5],
    remove_events := #[13/2, 13/2],
    coord := #[#[2, 1], #[3, 3]],
    distances := #[1, 2],
    offset_visibility := #[0, 0],
    visibility := #[0, 0] }

/-- First sweep over inputC6, from fresh buffers. -/
def runOnce : Option SweepSt :=
  sweep_through_angles inputC6 #[1, 0] #[0, 1] #[0, 1] ([] : List ((ℤ × ℤ) × ℚ))

/-- Second sweep over inputC6, fed the event-order arrays and visibility
map exactly as the first sweep left them (the in-place mutation a caller
repeating the call would observe). -/
def runTwice : Option SweepSt :=
  match runOnce with
  | none => none
  | some st => sweep_through_angles inputC6 st.arg_min st.arg_center st.arg_max st.vmap

/-- Claim C6, counterexample: both sweeps complete, but the repeated run
produces a different visibility grid: the first run leaves 1000000 at
cell (2,3) while the repeated run leaves 6 there, because the first run
zeroed the consumed arg_min entries (turning the add order [1,0] into
[0,0]) and left its stamps and debug writes in the visibility map. -/
theorem C6_counterexample :
    runOnce.isSome ∧ runTwice.isSome
      ∧ vget ((runTwice.getD default).vmap) (2, 3)
        ≠ vget ((runOnce.getD default).vmap) (2, 3) := by
  decide!

/-- Claim C6, witness: the consumption theorem applied to the first run
of inputC6; its final add cursor is 2 and entry 0 of arg_min has been
zeroed. -/
theorem C6_witness :
    (runOnce.getD default).arg_min.getD 0 1 = 0 :=
  (C6_theorem inputC6 #[1, 0] #[0, 1] #[0, 1] ([] : List ((ℤ × ℤ) × ℚ))
    (runOnce.getD default) (by decide) (by decide) (by decide!)).1 0 (by decide!)

/-! ## Angle Classifier: the real-valued angle layer

Source, list_extreme_cell_angles (lines 740-771): per-cell center angle
atan2(-(row - viewpoint_row), col - viewpoint_col) normalised into
[0, 2pi), the 8-sector classification of that angle, the per-sector
extreme-corner offsets from the extreme_cell_points table (lines
666-674), and the corner angles normalised the same way. -/

/-- Embedding of C atan2(y, x): arctan of y/x corrected by quadrant, with
atan2(0, x<0) = pi (the source feeds exact zeros, never signed negative
zeros) and atan2(0, 0) = 0. -/
noncomputable def atan2 (y x : ℝ) : ℝ :=
  if 0 < x then Real.arctan (y / x)
  else if x < 0 then
    (if 0 ≤ y then Real.arctan (y / x) + Real.pi else Real.arctan (y / x) - Real.pi)
  else
    (if 0 < y then Real.pi / 2 else if y < 0 then -(Real.pi / 2) else 0)

/-- Embedding of (atan2(y, x) + two_pi) % two_pi: since atan2 lies in
(-pi, pi], this adds two_pi exactly when atan2 is negative, landing in
[0, 2pi). -/
noncomputable def natan2 (y x : ℝ) : ℝ :=
  if atan2 y x < 0 then atan2 y x + 2 * Real.pi else atan2 y x

/-- Center angle of the cell at offset (dr, dc) from the viewpoint
(source line 741): the row axis is negated. -/
noncomputable def centerAngle (dr dc : ℤ) : ℝ := natan2 (-(dr : ℝ)) (dc : ℝ)

/-- Sector classification (source lines 747-750):
sector = <int>(4*angle/two_pi)*2, plus 1 when the cell is not axis-aligned
with the viewpoint (abs(dr*dc) > 0); the angle is nonnegative so the C
truncation is the floor. -/
noncomputable def sectorOf (dr dc : ℤ) : ℤ :=
  ⌊4 * centerAngle dr dc / (2 * Real.pi)⌋ * 2 + (if dr * dc ≠ 0 then 1 else 0)

/-- Rows of the extreme_cell_points table (source lines 666-674), first
point: (row, col) offset from the cell center to the first corner met by
the sweep line, indexed by sector. -/
def minCornerOffset : ℤ → ℚ × ℚ
  | 0 => (1/2, -1/2)
  | 1 => (1/2, 1/2)
  | 2 => (1/2, 1/2)
  | 3 => (-1/2, 1/2)
  | 4 => (-1/2, 1/2)
  | 5 => (-1/2, -1/2)
  | 6 => (-1/2, -1/2)
  | _ => (1/2, -1/2)

/-- Rows of the extreme_cell_points table, second point: offset to the
last corner met by the sweep line, indexed by sector. -/
def maxCornerOffset : ℤ → ℚ × ℚ
  | 0 => (-1/2, -1/2)
  | 1 => (-1/2, -1/2)
  | 2 => (1/2, -1/2)
  | 3 => (1/2, -1/2)
  | 4 => (1/2, 1/2)
  | 5 => (1/2, 1/2)
  | 6 => (-1/2, 1/2)
  | _ => (-1/2, 1/2)

/-- Minimum angle of the cell at offset (dr, dc) (source lines 761-762,
766, 769): the first-corner position is the cell offset plus the sector's
first corner offset, and its angle is atan2 of the negated corner row
over the corner column, normalised into [0, 2pi). -/
noncomputable def minAngle (dr dc : ℤ) : ℝ :=
  natan2 (-((dr : ℝ) + ((minCornerOffset (sectorOf dr dc)).1 : ℚ)))
    ((dc : ℝ) + ((minCornerOffset (sectorOf dr dc)).2 : ℚ))

/-- Maximum angle of the cell at offset (dr, dc) (source lines 763-764,
767, 770). -/
noncomputable def maxAngle (dr dc : ℤ) : ℝ :=
  natan2 (-((dr : ℝ) + ((maxCornerOffset (sectorOf dr dc)).1 : ℚ)))
    ((dc : ℝ) + ((maxCornerOffset (sectorOf dr dc)).2 : ℚ))

theorem arctan_nonneg_of_nonneg {z : ℝ} (h : 0 ≤ z) : 0 ≤ Real.arctan z := by
  have := Real.arctan_strictMono.monotone h
  rwa [Real.arctan_zero] at this

theorem arctan_neg_of_neg {z : ℝ} (h : z < 0) : Real.arctan z < 0 := by
  have := Real.arctan_strictMono h
  rwa [Real.arctan_zero] at this

theorem arctan_pos_of_pos {z : ℝ} (h : 0 < z) : 0 < Real.arctan z := by
  have := Real.arctan_strictMono h
  rwa [Real.arctan_zero] at this

/-- natan2 in the open first quadrant and on the positive x axis. -/
theorem natan2_q1 {y x : ℝ} (hx : 0 < x) (hy : 0 ≤ y) :
    natan2 y x = Real.arctan (y / x) := by
  unfold natan2 atan2
  rw [if_pos hx, if_neg (not_lt.mpr (arctan_nonneg_of_nonneg (div_nonneg hy hx.le)))]

/-- natan2 in the open second quadrant. -/
theorem natan2_q2 {y x : ℝ} (hx : x < 0) (hy : 0 ≤ y) :
    natan2 y x = Real.arctan (y / x) + Real.pi := by
  unfold natan2 atan2
  rw [if_neg (not_lt.mpr hx.le), if_pos hx, if_pos hy, if_neg]
  push_neg
  nlinarith [Real.neg_pi_div_two_lt_arctan (y / x), Real.pi_pos]

/-- natan2 in the open third quadrant: atan2 is arctan - pi, negative, so
the normalisation adds 2 pi. -/
theorem natan2_q3 {y x : ℝ} (hx : x < 0) (hy : y < 0) :
    natan2 y x = Real.arctan (y / x) + Real.pi := by
  unfold natan2 atan2
  rw [if_neg (not_lt.mpr hx.le), if_pos hx, if_neg (not_le.mpr hy), if_pos]
  · ring
  · nlinarith [Real.arctan_lt_pi_div_two (y / x), Real.pi_pos]

/-- natan2 in the open fourth quadrant: atan2 is a negative arctan, so
the normalisation adds 2 pi. -/
theorem natan2_q4 {y x : ℝ} (hx : 0 < x) (hy : y < 0) :
    natan2 y x = Real.arctan (y / x) + 2 * Real.pi := by
  unfold natan2 atan2
  rw [if_pos hx, if_pos (arctan_neg_of_neg (div_neg_of_neg_of_pos hy hx))]

/-- natan2 straight up. -/
theorem natan2_up {y : ℝ} (hy : 0 < y) : natan2 y 0 = Real.pi / 2 := by
  unfold natan2 atan2
  rw [if_neg (lt_irrefl 0), if_neg (lt_irrefl 0), if_pos hy, if_neg]
  push_neg
  positivity

/-- natan2 straight down. -/
theorem natan2_down {y : ℝ} (hy : y < 0) : natan2 y 0 = 3 * Real.pi / 2 := by
  unfold natan2 atan2
  rw [if_neg (lt_irrefl 0), if_neg (lt_irrefl 0), if_neg (not_lt.mpr hy.le),
    if_pos hy, if_pos (by nlinarith [Real.pi_pos])]
  ring

/-- Floor computation for the sector of an angle lying in quarter-turn k. -/
theorem floor_quarter (θ : ℝ) (k : ℕ) (h1 : (k : ℝ) * (Real.pi / 2) ≤ θ)
    (h2 : θ < ((k : ℝ) + 1) * (Real.pi / 2)) :
    ⌊4 * θ / (2 * Real.pi)⌋ = (k : ℤ) := by
  have hπ : (0 : ℝ) < Real.pi := Real.pi_pos
  rw [Int.floor_eq_iff]
  constructor
  · push_cast
    rw [le_div_iff (by positivity)]
    nlinarith
  · push_cast
    rw [div_lt_iff (by positivity)]
    nlinarith

/-- Monotonicity of arctan across a cross-multiplied ratio comparison. -/
theorem arctan_div_mono {a b c d : ℝ} (hb : 0 < b) (hd : 0 < d)
    (h : a * d ≤ c * b) : Real.arctan (a / b) ≤ Real.arctan (c / d) :=
  Real.arctan_strictMono.monotone ((div_le_div_iff hb hd).mpr h)

theorem sector1_bounds (dr dc : ℤ) (hdr : dr < 0) (hdc : 0 < dc) :
    minAngle dr dc ≤ centerAngle dr dc ∧ centerAngle dr dc ≤ maxAngle dr dc := by
  have hu : (1 : ℝ) ≤ -(dr : ℝ) := by exact_mod_cast (by omega : (1 : ℤ) ≤ -dr)
  have hv : (1 : ℝ) ≤ (dc : ℝ) := by exact_mod_cast (by omega : (1 : ℤ) ≤ dc)
  have hvpos : (0 : ℝ) < (dc : ℝ) := by linarith
  have hypos : (0 : ℝ) ≤ -(dr : ℝ) := by linarith
  have hC : centerAngle dr dc = Real.arctan (-(dr : ℝ) / (dc : ℝ)) :=
    natan2_q1 hvpos hypos
  have h0 : 0 ≤ centerAngle dr dc := by
    rw [hC]
    exact arctan_nonneg_of_nonneg (div_nonneg hypos hvpos.le)
  have h1 : centerAngle dr dc < Real.pi / 2 := by
    rw [hC]
    exact Real.arctan_lt_pi_div_two _
  have hfl : ⌊4 * centerAngle dr dc / (2 * Real.pi)⌋ = ((0 : ℕ) : ℤ) :=
    floor_quarter _ 0 (by simpa using h0) (by simpa using h1)
  have hsec : sectorOf dr dc = 1 := by
    unfold sectorOf
    rw [hfl, if_pos (mul_ne_zero (by omega) (by omega))]
    norm_num
  have hoffmin : minCornerOffset (1 : ℤ) = (1/2, 1/2) := rfl
  have hoffmax : maxCornerOffset (1 : ℤ) = (-1/2, -1/2) := rfl
  have hmin : minAngle dr dc = natan2 (-(dr : ℝ) - 1/2) ((dc : ℝ) + 1/2) := by
    unfold minAngle
    rw [hsec, hoffmin]
    norm_num
    congr 1
    ring
  have hmax : maxAngle dr dc = natan2 (-(dr : ℝ) + 1/2) ((dc : ℝ) - 1/2) := by
    unfold maxAngle
    rw [hsec, hoffmax]
    norm_num
    congr 1 <;> ring
  have hminq : minAngle dr dc
      = Real.arctan ((-(dr : ℝ) - 1/2) / ((dc : ℝ) + 1/2)) := by
    rw [hmin]
    exact natan2_q1 (by linarith) (by linarith)
  have hmaxq : maxAngle dr dc
      = Real.arctan ((-(dr : ℝ) + 1/2) / ((dc : ℝ) - 1/2)) := by
    rw [hmax]
    exact natan2_q1 (by linarith) (by linarith)
  constructor
  · rw [hminq, hC]
    exact arctan_div_mono (by linarith) hvpos (by nlinarith)
  · rw [hC, hmaxq]
    exact arctan_div_mono hvpos (by linarith) (by nlinarith)

/-- Monotonicity of arctan across a ratio comparison with negative
denominators. -/
theorem arctan_div_mono_neg {a b c d : ℝ} (hb : b < 0) (hd : d < 0)
    (h : a * d ≤ c * b) : Real.arctan (a / b) ≤ Real.arctan (c / d) := by
  rw [← neg_div_neg_eq a b, ← neg_div_neg_eq c d]
  exact arctan_div_mono (by linarith) (by linarith) (by nlinarith)

theorem sector3_bounds (dr dc : ℤ) (hdr : dr < 0) (hdc : dc < 0) :
    minAngle dr dc ≤ centerAngle dr dc ∧ centerAngle dr dc ≤ maxAngle dr dc := by
  have hu : (1 : ℝ) ≤ -(dr : ℝ) := by exact_mod_cast (by omega : (1 : ℤ) ≤ -dr)
  have hv : (dc : ℝ) ≤ -1 := by exact_mod_cast (by omega : dc ≤ (-1 : ℤ))
  have hvneg : (dc : ℝ) < 0 := by linarith
  have hypos : (0 : ℝ) ≤ -(dr : ℝ) := by linarith
  have hC : centerAngle dr dc = Real.arctan (-(dr : ℝ) / (dc : ℝ)) + Real.pi :=
    natan2_q2 hvneg hypos
  have hrat : -(dr : ℝ) / (dc : ℝ) < 0 :=
    div_neg_of_pos_of_neg (by linarith) hvneg
  have h0 : (1 : ℝ) * (Real.pi / 2) ≤ centerAngle dr dc := by
    rw [hC]
    nlinarith [Real.neg_pi_div_two_lt_arctan (-(dr : ℝ) / (dc : ℝ)), Real.pi_pos]
  have h1 : centerAngle dr dc < ((1 : ℝ) + 1) * (Real.pi / 2) := by
    rw [hC]
    nlinarith [arctan_neg_of_neg hrat, Real.pi_pos]
  have hfl : ⌊4 * centerAngle dr dc / (2 * Real.pi)⌋ = ((1 : ℕ) : ℤ) :=
    floor_quarter _ 1 (by simpa using h0) (by simpa using h1)
  have hsec : sectorOf dr dc = 3 := by
    unfold sectorOf
    rw [hfl, if_pos (mul_ne_zero (by omega) (by omega))]
    norm_num
  have hoffmin : minCornerOffset (3 : ℤ) = (-1/2, 1/2) := rfl
  have hoffmax : maxCornerOffset (3 : ℤ) = (1/2, -1/2) := rfl
  have hmin : minAngle dr dc = natan2 (-(dr : ℝ) + 1/2) ((dc : ℝ) + 1/2) := by
    unfold minAngle
    rw [hsec, hoffmin]
    norm_num
    congr 1 <;> ring
  have hmax : maxAngle dr dc = natan2 (-(dr : ℝ) - 1/2) ((dc : ℝ) - 1/2) := by
    unfold maxAngle
    rw [hsec, hoffmax]
    norm_num
    congr 1 <;> ring
  have hminq : minAngle dr dc
      = Real.arctan ((-(dr : ℝ) + 1/2) / ((dc : ℝ) + 1/2)) + Real.pi := by
    rw [hmin]
    exact natan2_q2 (by linarith) (by linarith)
  have hmaxq : maxAngle dr dc
      = Real.arctan ((-(dr : ℝ) - 1/2) / ((dc : ℝ) - 1/2)) + Real.pi := by
    rw [hmax]
    exact natan2_q2 (by linarith) (by linarith)
  constructor
  · rw [hminq, hC]
    have := arctan_div_mono_neg (a := -(dr : ℝ) + 1/2) (b := (dc : ℝ) + 1/2)
      (c := -(dr : ℝ)) (d := (dc : ℝ)) (by linarith) hvneg (by nlinarith)
    linarith
  · rw [hC, hmaxq]
    have := arctan_div_mono_neg (a := -(dr : ℝ)) (b := (dc : ℝ))
      (c := -(dr : ℝ) - 1/2) (d := (dc : ℝ) - 1/2) hvneg (by linarith) (by nlinarith)
    linarith

theorem sector5_bounds (dr dc : ℤ) (hdr : 0 < dr) (hdc : dc < 0) :
    minAngle dr dc ≤ centerAngle dr dc ∧ centerAngle dr dc ≤ maxAngle dr dc := by
  have hu : -(dr : ℝ) ≤ -1 := by exact_mod_cast (by omega : -dr ≤ (-1 : ℤ))
  have hv : (dc : ℝ) ≤ -1 := by exact_mod_cast (by omega : dc ≤ (-1 : ℤ))
  have hvneg : (dc : ℝ) < 0 := by linarith
  have hyneg : -(dr : ℝ) < 0 := by linarith
  have hC : centerAngle dr dc = Real.arctan (-(dr : ℝ) / (dc : ℝ)) + Real.pi :=
    natan2_q3 hvneg hyneg
  have hrat : 0 < -(dr : ℝ) / (dc : ℝ) := div_pos_of_neg_of_neg hyneg hvneg
  have h0 : (2 : ℝ) * (Real.pi / 2) ≤ centerAngle dr dc := by
    rw [hC]
    nlinarith [arctan_pos_of_pos hrat]
  have h1 : centerAngle dr dc < ((2 : ℝ) + 1) * (Real.pi / 2) := by
    rw [hC]
    nlinarith [Real.arctan_lt_pi_div_two (-(dr : ℝ) / (dc : ℝ))]
  have hfl : ⌊4 * centerAngle dr dc / (2 * Real.pi)⌋ = ((2 : ℕ) : ℤ) :=
    floor_quarter _ 2 (by simpa using h0) (by simpa using h1)
  have hsec : sectorOf dr dc = 5 := by
    unfold sectorOf
    rw [hfl, if_pos (mul_ne_zero (by omega) (by omega))]
    norm_num
  have hoffmin : minCornerOffset (5 : ℤ) = (-1/2, -1/2) := rfl
  have hoffmax : maxCornerOffset (5 : ℤ) = (1/2, 1/2) := rfl
  have hmin : minAngle dr dc = natan2 (-(dr : ℝ) + 1/2) ((dc : ℝ) - 1/2) := by
    unfold minAngle
    rw [hsec, hoffmin]
    norm_num
    congr 1 <;> ring
  have hmax : maxAngle dr dc = natan2 (-(dr : ℝ) - 1/2) ((dc : ℝ) + 1/2) := by
    unfold maxAngle
    rw [hsec, hoffmax]
    norm_num
    congr 1 <;> ring
  have hminq : minAngle dr dc
      = Real.arctan ((-(dr : ℝ) + 1/2) / ((dc : ℝ) - 1/2)) + Real.pi := by
    rw [hmin]
    exact natan2_q3 (by linarith) (by linarith)
  have hmaxq : maxAngle dr dc
      = Real.arctan ((-(dr : ℝ) - 1/2) / ((dc : ℝ) + 1/2)) + Real.pi := by
    rw [hmax]
    exact natan2_q3 (by linarith) (by linarith)
  constructor
  · rw [hminq, hC]
    have := arctan_div_mono_neg (a := -(dr : ℝ) + 1/2) (b := (dc : ℝ) - 1/2)
      (c := -(dr : ℝ)) (d := (dc : ℝ)) (by linarith) hvneg (by nlinarith)
    linarith
  · rw [hC, hmaxq]
    have := arctan_div_mono_neg (a := -(dr : ℝ)) (b := (dc : ℝ))
      (c := -(dr : ℝ) - 1/2) (d := (dc : ℝ) + 1/2) hvneg (by linarith) (by nlinarith)
    linarith

theorem sector7_bounds (dr dc : ℤ) (hdr : 0 < dr) (hdc : 0 < dc) :
    minAngle dr dc ≤ centerAngle dr dc ∧ centerAngle dr dc ≤ maxAngle dr dc := by
  have hu : -(dr : ℝ) ≤ -1 := by exact_mod_cast (by omega : -dr ≤ (-1 : ℤ))
  have hv : (1 : ℝ) ≤ (dc : ℝ) := by exact_mod_cast (by omega : (1 : ℤ) ≤ dc)
  have hvpos : (0 : ℝ) < (dc : ℝ) := by linarith
  have hyneg : -(dr : ℝ) < 0 := by linarith
  have hC : centerAngle dr dc
      = Real.arctan (-(dr : ℝ) / (dc : ℝ)) + 2 * Real.pi :=
    natan2_q4 hvpos hyneg
  have hrat : -(dr : ℝ) / (dc : ℝ) < 0 := div_neg_of_neg_of_pos hyneg hvpos
  have h0 : (3 : ℝ) * (Real.pi / 2) ≤ centerAngle dr dc := by
    rw [hC]
    nlinarith [Real.neg_pi_div_two_lt_arctan (-(dr : ℝ) / (dc : ℝ))]
  have h1 : centerAngle dr dc < ((3 : ℝ) + 1) * (Real.pi / 2) := by
    rw [hC]
    nlinarith [arctan_neg_of_neg hrat]
  have hfl : ⌊4 * centerAngle dr dc / (2 * Real.pi)⌋ = ((3 : ℕ) : ℤ) :=
    floor_quarter _ 3 (by simpa using h0) (by simpa using h1)
  have hsec : sectorOf dr dc = 7 := by
    unfold sectorOf
    rw [hfl, if_pos (mul_ne_zero (by omega) (by omega))]
    norm_num
  have hoffmin : minCornerOffset (7 : ℤ) = (1/2, -1/2) := rfl
  have hoffmax : maxCornerOffset (7 : ℤ) = (-1/2, 1/2) := rfl
  have hmin : minAngle dr dc = natan2 (-(dr : ℝ) - 1/2) ((dc : ℝ) - 1/2) := by
    unfold minAngle
    rw [hsec, hoffmin]
    norm_num
    congr 1 <;> ring
  have hmax : maxAngle dr dc = natan2 (-(dr : ℝ) + 1/2) ((dc : ℝ) + 1/2) := by
    unfold maxAngle
    rw [hsec, hoffmax]
    norm_num
    congr 1 <;> ring
  have hminq : minAngle dr dc
      = Real.arctan ((-(dr : ℝ) - 1/2) / ((dc : ℝ) - 1/2)) + 2 * Real.pi := by
    rw [hmin]
    exact natan2_q4 (by linarith) (by linarith)
  have hmaxq : maxAngle dr dc
      = Real.arctan ((-(dr : ℝ) + 1/2) / ((dc : ℝ) + 1/2)) + 2 * Real.pi := by
    rw [hmax]
    exact natan2_q4 (by linarith) (by linarith)
  constructor
  · rw [hminq, hC]
    have := arctan_div_mono (a := -(dr : ℝ) - 1/2) (b := (dc : ℝ) - 1/2)
      (c := -(dr : ℝ)) (d := (dc : ℝ)) (by linarith) hvpos (by nlinarith)
    linarith
  · rw [hC, hmaxq]
    have := arctan_div_mono (a := -(dr : ℝ)) (b := (dc : ℝ))
      (c := -(dr : ℝ) + 1/2) (d := (dc : ℝ) + 1/2) hvpos (by linarith) (by nlinarith)
    linarith

theorem sector2_bounds (dr dc : ℤ) (hdr : dr < 0) (hdc : dc = 0) :
    minAngle dr dc ≤ centerAngle dr dc ∧ centerAngle dr dc ≤ maxAngle dr dc := by
  subst hdc
  have hu : (1 : ℝ) ≤ -(dr : ℝ) := by exact_mod_cast (by omega : (1 : ℤ) ≤ -dr)
  have hπ : (0 : ℝ) < Real.pi := Real.pi_pos
  have hC : centerAngle dr 0 = Real.pi / 2 := by
    unfold centerAngle
    rw [show (((0 : ℤ) : ℝ)) = (0 : ℝ) by norm_num]
    exact natan2_up (by linarith)
  have hfl : ⌊4 * centerAngle dr 0 / (2 * Real.pi)⌋ = ((1 : ℕ) : ℤ) := by
    refine floor_quarter _ 1 ?_ ?_
    · rw [hC]
      push_cast
      linarith
    · rw [hC]
      push_cast
      linarith
  have hsec : sectorOf dr 0 = 2 := by
    unfold sectorOf
    rw [hfl, if_neg (by simp)]
    norm_num
  have hoffmin : minCornerOffset (2 : ℤ) = (1/2, 1/2) := rfl
  have hoffmax : maxCornerOffset (2 : ℤ) = (1/2, -1/2) := rfl
  have hmin : minAngle dr 0 = natan2 (-(dr : ℝ) - 1/2) (1/2) := by
    unfold minAngle
    rw [hsec, hoffmin]
    norm_num
    congr 1
    ring
  have hmax : maxAngle dr 0 = natan2 (-(dr : ℝ) - 1/2) (-(1/2)) := by
    unfold maxAngle
    rw [hsec, hoffmax]
    norm_num
    congr 1
    ring
  constructor
  · rw [hmin, hC, natan2_q1 (by norm_num) (by linarith)]
    exact (Real.arctan_lt_pi_div_two _).le
  · rw [hmax, hC, natan2_q2 (by norm_num) (by linarith)]
    nlinarith [Real.neg_pi_div_two_lt_arctan ((-(dr : ℝ) - 1/2) / (-(1/2)))]

theorem sector4_bounds (dr dc : ℤ) (hdr : dr = 0) (hdc : dc < 0) :
    minAngle dr dc ≤ centerAngle dr dc ∧ centerAngle dr dc ≤ maxAngle dr dc := by
  subst hdr
  have hv : (dc : ℝ) ≤ -1 := by exact_mod_cast (by omega : dc ≤ (-1 : ℤ))
  have hvneg : (dc : ℝ) < 0 := by linarith
  have hπ : (0 : ℝ) < Real.pi := Real.pi_pos
  have hC : centerAngle 0 dc = Real.pi := by
    unfold centerAngle
    rw [show -(((0 : ℤ) : ℝ)) = (0 : ℝ) by norm_num]
    rw [natan2_q2 hvneg le_rfl]
    simp
  have hfl : ⌊4 * centerAngle 0 dc / (2 * Real.pi)⌋ = ((2 : ℕ) : ℤ) := by
    refine floor_quarter _ 2 ?_ ?_
    · rw [hC]
      push_cast
      linarith
    · rw [hC]
      push_cast
      linarith
  have hsec : sectorOf 0 dc = 4 := by
    unfold sectorOf
    rw [hfl, if_neg (by simp)]
    norm_num
  have hoffmin : minCornerOffset (4 : ℤ) = (-1/2, 1/2) := rfl
  have hoffmax : maxCornerOffset (4 : ℤ) = (1/2, 1/2) := rfl
  have hmin : minAngle 0 dc = natan2 (1/2) ((dc : ℝ) + 1/2) := by
    unfold minAngle
    rw [hsec, hoffmin]
    norm_num
  have hmax : maxAngle 0 dc = natan2 (-(1/2)) ((dc : ℝ) + 1/2) := by
    unfold maxAngle
    rw [hsec, hoffmax]
    norm_num
  constructor
  · rw [hmin, hC, natan2_q2 (by linarith) (by norm_num)]
    nlinarith [arctan_neg_of_neg
      (div_neg_of_pos_of_neg (by norm_num : (0:ℝ) < 1/2) (by linarith : (dc:ℝ) + 1/2 < 0))]
  · rw [hC, hmax, natan2_q3 (by linarith) (by norm_num)]
    nlinarith [arctan_pos_of_pos
      (div_pos_of_neg_of_neg (by norm_num : (-(1/2) : ℝ) < 0) (by linarith : (dc:ℝ) + 1/2 < 0))]

theorem sector6_bounds (dr dc : ℤ) (hdr : 0 < dr) (hdc : dc = 0) :
    minAngle dr dc ≤ centerAngle dr dc ∧ centerAngle dr dc ≤ maxAngle dr dc := by
  subst hdc
  have hu : -(dr : ℝ) ≤ -1 := by exact_mod_cast (by omega : -dr ≤ (-1 : ℤ))
  have hπ : (0 : ℝ) < Real.pi := Real.pi_pos
  have hC : centerAngle dr 0 = 3 * Real.pi / 2 := by
    unfold centerAngle
    rw [show (((0 : ℤ) : ℝ)) = (0 : ℝ) by norm_num]
    exact natan2_down (by linarith)
  have hfl : ⌊4 * centerAngle dr 0 / (2 * Real.pi)⌋ = ((3 : ℕ) : ℤ) := by
    refine floor_quarter _ 3 ?_ ?_
    · rw [hC]
      push_cast
      linarith
    · rw [hC]
      push_cast
      linarith
  have hsec : sectorOf dr 0 = 6 := by
    unfold sectorOf
    rw [hfl, if_neg (by simp)]
    norm_num
  have hoffmin : minCornerOffset (6 : ℤ) = (-1/2, -1/2) := rfl
  have hoffmax : maxCornerOffset (6 : ℤ) = (-1/2, 1/2) := rfl
  have hmin : minAngle dr 0 = natan2 (-(dr : ℝ) + 1/2) (-(1/2)) := by
    unfold minAngle
    rw [hsec, hoffmin]
    norm_num
    congr 1
    ring
  have hmax : maxAngle dr 0 = natan2 (-(dr : ℝ) + 1/2) (1/2) := by
    unfold maxAngle
    rw [hsec, hoffmax]
    norm_num
    congr 1
    ring
  constructor
  · rw [hmin, hC, natan2_q3 (by norm_num) (by linarith)]
    nlinarith [Real.arctan_lt_pi_div_two ((-(dr : ℝ) + 1/2) / (-(1/2)))]
  · rw [hC, hmax, natan2_q4 (by norm_num) (by linarith)]
    nlinarith [Real.neg_pi_div_two_lt_arctan ((-(dr : ℝ) + 1/2) / (1/2))]

theorem sector0_bounds (dr dc : ℤ) (hdr : dr = 0) (hdc : 0 < dc) :
    maxAngle dr dc < minAngle dr dc ∧ centerAngle dr dc ≤ maxAngle dr dc := by
  subst hdr
  have hv : (1 : ℝ) ≤ (dc : ℝ) := by exact_mod_cast (by omega : (1 : ℤ) ≤ dc)
  have hπ : (0 : ℝ) < Real.pi := Real.pi_pos
  have hC : centerAngle 0 dc = 0 := by
    unfold centerAngle
    rw [show -(((0 : ℤ) : ℝ)) = (0 : ℝ) by norm_num]
    rw [natan2_q1 (by linarith) le_rfl]
    simp
  have hfl : ⌊4 * centerAngle 0 dc / (2 * Real.pi)⌋ = ((0 : ℕ) : ℤ) := by
    refine floor_quarter _ 0 ?_ ?_
    · rw [hC]
      push_cast
      linarith
    · rw [hC]
      push_cast
      linarith
  have hsec : sectorOf 0 dc = 0 := by
    unfold sectorOf
    rw [hfl, if_neg (by simp)]
    norm_num
  have hoffmin : minCornerOffset (0 : ℤ) = (1/2, -1/2) := rfl
  have hoffmax : maxCornerOffset (0 : ℤ) = (-1/2, -1/2) := rfl
  have hmin : minAngle 0 dc = natan2 (-(1/2)) ((dc : ℝ) - 1/2) := by
    unfold minAngle
    rw [hsec, hoffmin]
    norm_num
    congr 1
  have hmax : maxAngle 0 dc = natan2 (1/2) ((dc : ℝ) - 1/2) := by
    unfold maxAngle
    rw [hsec, hoffmax]
    norm_num
    congr 1
  have hminq : minAngle 0 dc
      = Real.arctan (-(1/2) / ((dc : ℝ) - 1/2)) + 2 * Real.pi := by
    rw [hmin]
    exact natan2_q4 (by linarith) (by norm_num)
  have hmaxq : maxAngle 0 dc = Real.arctan ((1/2) / ((dc : ℝ) - 1/2)) := by
    rw [hmax]
    exact natan2_q1 (by linarith) (by norm_num)
  constructor
  · rw [hminq, hmaxq]
    nlinarith [Real.arctan_lt_pi_div_two ((1/2) / ((dc : ℝ) - 1/2)),
      Real.neg_pi_div_two_lt_arctan (-(1/2) / ((dc : ℝ) - 1/2))]
  · rw [hC, hmaxq]
    exact arctan_nonneg_of_nonneg (div_nonneg (by norm_num) (by linarith))

/-- Claim C7: for every cell record of the Angle Classifier (every
integer offset (dr, dc) from the viewpoint other than (0,0)), the angular
interval from minAngle to maxAngle, read as an arc modulo 2 pi that wraps
across 0 when minAngle > maxAngle, contains centerAngle; in the
non-wrapping case minAngle <= centerAngle <= maxAngle. -/
theorem C7_theorem (dr dc : ℤ) (h : ¬ (dr = 0 ∧ dc = 0)) :
    (minAngle dr dc ≤ maxAngle dr dc →
      minAngle dr dc ≤ centerAngle dr dc ∧ centerAngle dr dc ≤ maxAngle dr dc)
    ∧ (maxAngle dr dc < minAngle dr dc →
      minAngle dr dc ≤ centerAngle dr dc ∨ centerAngle dr dc ≤ maxAngle dr dc) := by
  have wrapFree : minAngle dr dc ≤ centerAngle dr dc
      ∧ centerAngle dr dc ≤ maxAngle dr dc →
      (minAngle dr dc ≤ maxAngle dr dc →
        minAngle dr dc ≤ centerAngle dr dc ∧ centerAngle dr dc ≤ maxAngle dr dc)
      ∧ (maxAngle dr dc < minAngle dr dc →
        minAngle dr dc ≤ centerAngle dr dc ∨ centerAngle dr dc ≤ maxAngle dr dc) :=
    fun hb => ⟨fun _ => hb, fun _ => Or.inl hb.1⟩
  rcases lt_trichotomy dr 0 with hdr | hdr | hdr
  · rcases lt_trichotomy dc 0 with hdc | hdc | hdc
    · exact wrapFree (sector3_bounds dr dc hdr hdc)
    · exact wrapFree (sector2_bounds dr dc hdr hdc)
    · exact wrapFree (sector1_bounds dr dc hdr hdc)
  · rcases lt_trichotomy dc 0 with hdc | hdc | hdc
    · exact wrapFree (sector4_bounds dr dc hdr hdc)
    · exact absurd ⟨hdr, hdc⟩ h
    · obtain ⟨hwrap, hcmx⟩ := sector0_bounds dr dc hdr hdc
      exact ⟨fun hle => absurd hle (not_le.mpr hwrap), fun _ => Or.inr hcmx⟩
  · rcases lt_trichotomy dc 0 with hdc | hdc | hdc
    · exact wrapFree (sector5_bounds dr dc hdr hdc)
    · exact wrapFree (sector6_bounds dr dc hdr hdc)
    · exact wrapFree (sector7_bounds dr dc hdr hdc)

/-- Claim C7, witness: the containment applied to the cell at offset
(-1, 1) (north-east of the viewpoint). -/
theorem C7_witness :
    (minAngle (-1) 1 ≤ maxAngle (-1) 1 →
      minAngle (-1) 1 ≤ centerAngle (-1) 1 ∧ centerAngle (-1) 1 ≤ maxAngle (-1) 1)
    ∧ (maxAngle (-1) 1 < minAngle (-1) 1 →
      minAngle (-1) 1 ≤ centerAngle (-1) 1 ∨ centerAngle (-1) 1 ≤ maxAngle (-1) 1) :=
  C7_theorem (-1) 1 (by decide)

end Viewshed
